import Mathlib

/-!
Verification of the CVR-PETCO2 preprocessing and sampling code
(`vb_models_cvr/petco2.py`) against its natural-language specification.

The Python code is shallowly embedded over exact rationals:

* numpy arrays become `List ℚ`;
* the IEEE `NaN` produced by `np.mean` of an empty array becomes `none`
  in an `Option ℚ` (no other NaN source occurs on the modelled paths);
* operations that raise a Python exception return `Except PyErr _`;
* `tf.gather`, which fails on an out-of-range index, returns `Option ℚ`.
-/

/-- Runtime errors the embedded Python/TensorFlow code can raise.
`calibrationError` does not occur anywhere in the source; it is included
because the specification claims calibration failures raise a
`CalibrationError`, so the claim can be stated and compared against the
errors the code actually produces. -/
inductive PyErr where
  | indexError
  | valueError
  | overflowError
  | calibrationError
  deriving DecidableEq

/-- The four parallel columns of the physiological data file
(`self.timings`, `self.petco2`, `self.peto2`, `self.trig`). -/
structure RawTrace where
  timings : List ℚ
  petco2 : List ℚ
  peto2 : List ℚ
  trig : List ℚ
  deriving DecidableEq

/-- Boolean-mask selection `self.timings[self.trig > threshold_trig]`
(line 143): the times of all samples whose trigger channel exceeds the
threshold. -/
def trigTime (timings trig : List ℚ) (threshold : ℚ) : List ℚ :=
  (timings.zip trig).filterMap (fun p => if threshold < p.2 then some p.1 else none)

/-- Elementwise `trig_time[2:-1] - trig_time[1:-2]` (line 144).
Python slice `a[2:-1]` is `(a.take (a.length - 1)).drop 2` and
`a[1:-2]` is `(a.take (a.length - 2)).drop 1`. -/
def trigTimeDiff (tt : List ℚ) : List ℚ :=
  List.zipWith (fun a b => a - b) ((tt.take (tt.length - 1)).drop 2)
    ((tt.take (tt.length - 2)).drop 1)

/-- `np.mean`: the mean of an empty array is IEEE `NaN`, modelled as
`none`. -/
def npMean (l : List ℚ) : Option ℚ :=
  if l = [] then none else some (l.sum / l.length)

/-- Python indexing `l[i]` with negative-index wrap-around; raises
`IndexError` when out of range. -/
def pyGet (l : List ℚ) (i : ℤ) : Except PyErr ℚ :=
  let j : ℤ := if i < 0 then i + l.length else i
  if h : 0 ≤ j ∧ j < (l.length : ℤ) then
    .ok (l.get ⟨j.toNat, by omega⟩)
  else
    .error .indexError

deriving instance DecidableEq for Except

/-- Boolean-mask selection `self.petco2[self.timings >= trim_time_begin]`
(line 150). -/
def petco2Trim (timings petco2 : List ℚ) (t0 : ℚ) : List ℚ :=
  (timings.zip petco2).filterMap (fun p => if t0 ≤ p.1 then some p.2 else none)

/-- Result of lines 142-150 of `_preproc_co2`: estimated TR (`NaN`,
i.e. `none`, when there are no interior trigger intervals), volume
count, and the delay-trimmed PETCO2 trace. -/
structure TrimResult where
  tr : Option ℚ
  vols : ℤ
  trimmed : List ℚ
  deriving DecidableEq

/-- Lines 142-150 of `_preproc_co2`: detect triggers, estimate TR as the
mean interior trigger interval, set `vols = len(trig_time) - 1`, and trim
the PETCO2 trace to timestamps at or after `trig_time[1] - delay`.
The `trig_time[1]` access raises `IndexError` when fewer than two trigger
samples were detected. -/
def preprocTrim (raw : RawTrace) (threshold delay : ℚ) : Except PyErr TrimResult :=
  let tt := trigTime raw.timings raw.trig threshold
  match pyGet tt 1 with
  | .error e => .error e
  | .ok t1 =>
      .ok ⟨npMean (trigTimeDiff tt), (tt.length : ℤ) - 1,
        petco2Trim raw.timings raw.petco2 (t1 - delay)⟩

/-- `tf.clip_by_value x lo hi`, i.e. `min (max x lo) hi`. -/
def clip (x lo hi : ℚ) : ℚ := min (max x lo) hi

/-- `tf.cast(x, tf.int32)` on a float, and Python `int(x)`: truncation
toward zero. -/
def truncQ (q : ℚ) : ℤ := if 0 ≤ q then ⌊q⌋ else ⌈q⌉

/-- `tf.gather` from a 1-d array: succeeds exactly when the index is in
range (TensorFlow raises `InvalidArgumentError` on CPU otherwise). -/
def tfGather (l : List ℚ) (i : ℤ) : Option ℚ :=
  if h : 0 ≤ i ∧ i.toNat < l.length then some (l.get ⟨i.toNat, h.2⟩) else none

/-- Lines 91-95 of `evaluate`: `t_base = clip_by_value(floor(t_delayed),
0, len(co2_mmHg)-1)` cast to `int32`.  Floor and clip of integer-valued
floats commute with the exact cast, so the index is computed in `ℤ`. -/
def tBaseOf (n : ℕ) (td : ℚ) : ℤ := min (max ⌊td⌋ 0) ((n : ℤ) - 1)

/-- Line 98 of `evaluate`: `t_frac = clip_by_value(t_delayed - t_base, 0, 1)`
with `t_base` the already-clipped base index. -/
def tFracOf (n : ℕ) (td : ℚ) : ℚ := clip (td - (tBaseOf n td : ℚ)) 0 1

/-- Lines 90-107 of `evaluate` (the `infer_delay` path) for one
(node, sample, time) element: subtract the delay, clip the floored base
index, gather base and diff values and linearly interpolate. -/
def sampleDelayElem (curve diff : List ℚ) (t delay : ℚ) : Option ℚ :=
  let td := t - delay
  let idx := tBaseOf curve.length td
  match tfGather curve idx, tfGather diff idx with
  | some b, some d => some (b + tFracOf curve.length td * d)
  | _, _ => none

/-- Lines 112-114 of `evaluate` (the no-delay path) for one element:
cast the timepoint to `int32` and gather, with no clipping. -/
def sampleNoDelayElem (curve : List ℚ) (t : ℚ) : Option ℚ :=
  tfGather curve (truncQ t)

/-- Sequencing of elementwise results over a batch: the TensorFlow op
fails as a whole when any element's gather fails. -/
def seqOpt : List (Option ℚ) → Option (List ℚ)
  | [] => some []
  | none :: _ => none
  | some v :: os => (seqOpt os).map (fun vs => v :: vs)

/-- The delay-path sample operation over a batch of timepoints. -/
def sampleDelayBatch (curve diff : List ℚ) (delay : ℚ) (tpts : List ℚ) :
    Option (List ℚ) :=
  seqOpt (tpts.map (fun t => sampleDelayElem curve diff t delay))

/-- The no-delay-path sample operation over a batch of timepoints. -/
def sampleNoDelayBatch (curve : List ℚ) (tpts : List ℚ) : Option (List ℚ) :=
  seqOpt (tpts.map (sampleNoDelayElem curve))

/-- Lines 76-116 of `evaluate` for one element: `sig0` is the inferred
parameter when `infer_sig0` is set and the constant `0` otherwise, and
the model output is `sig0 * (1 + cvr * delayed_co2 / 100)`. -/
def evaluateElem (inferSig0 inferDelay : Bool) (curve diff : List ℚ)
    (cvr sig0p delayp : ℚ) (t : ℚ) : Option ℚ :=
  let sig0 : ℚ := if inferSig0 then sig0p else 0
  let co2 := if inferDelay then sampleDelayElem curve diff t delayp
             else sampleNoDelayElem curve t
  co2.map (fun c => sig0 * (1 + cvr * c / 100))

/-- `evaluate` over a batch of timepoints. -/
def evaluateBatch (inferSig0 inferDelay : Bool) (curve diff : List ℚ)
    (cvr sig0p delayp : ℚ) (tpts : List ℚ) : Option (List ℚ) :=
  seqOpt (tpts.map (evaluateElem inferSig0 inferDelay curve diff cvr sig0p delayp))

/-- Lines 215-216 of `_preproc_co2`:
`co2_diff = zeros(len(co2_mmHg)); co2_diff[:-1] = co2_mmHg[1:] - co2_mmHg[:-1]`,
i.e. pointwise `diff[i] = curve[i+1] - curve[i]` for `i < len - 1`, and the
last entry keeps its initial value `0`. -/
def co2Diff (l : List ℚ) : List ℚ :=
  List.ofFn (fun i : Fin l.length =>
    if i.1 + 1 < l.length then l.getD (i.1 + 1) 0 - l.getD i.1 0 else 0)

/-- Python slice-bound normalisation for `l[i:j]`: negative bounds count
from the end, and bounds are clamped into `[0, len]`. -/
def pyIdx (n : ℕ) (i : ℤ) : ℕ := if i < 0 then (i + n).toNat else min i.toNat n

/-- Python slice `l[i:j]`. -/
def pySlice (l : List ℚ) (i j : ℤ) : List ℚ :=
  (l.take (pyIdx l.length j)).drop (pyIdx l.length i)

/-- Line 224 of `_preproc_co2`: `normocap = np.mean(co2_mmHg[:int(baseline_vols
+ delay)])` with `baseline_vols = baseline / tr`. -/
def normocap (curve : List ℚ) (baseline delay tr : ℚ) : Option ℚ :=
  npMean (pySlice curve 0 (truncQ (baseline / tr + delay)))

/-- Lines 226-232 of `_preproc_co2`: truncate the four cumulative
block-volume offsets and average `co2_mmHg[s1-1:s2]` together with
`co2_mmHg[s3-1:s4]`. -/
def hypercap (curve : List ℚ) (baseline blockOn blockOff delay tr : ℚ) :
    Option ℚ :=
  let bvols := baseline / tr
  let onv := blockOn / tr
  let offv := blockOff / tr
  let s1 := truncQ (bvols + delay + onv / 2)
  let s2 := truncQ (bvols + delay + onv)
  let s3 := truncQ (bvols + delay + onv + offv + onv / 2)
  let s4 := truncQ (bvols + delay + onv + offv + onv)
  npMean (pySlice curve (s1 - 1) s2 ++ pySlice curve (s3 - 1) s4)

/-- Modelled from the spec claim for comparison with `normocap`: the mean
of the calibrated curve over the integer indices in
`[0, baseline_vols + delay)`. -/
def normocapClaim (curve : List ℚ) (baseline delay tr : ℚ) : Option ℚ :=
  npMean (((List.range curve.length).filter
    (fun (i : ℕ) => decide ((i : ℚ) < baseline / tr + delay))).map
      (fun i => curve.getD i 0))

/-- Modelled from the spec claim for comparison with `hypercap`: the mean
of the curve over the two closed windows `[start, start + blocksize_on_vols/2]`,
where `start` is the cumulative block-volume offset of the second half of
each ON block. -/
def hypercapClaim (curve : List ℚ) (baseline blockOn blockOff delay tr : ℚ) :
    Option ℚ :=
  let st1 := baseline / tr + delay + (blockOn / tr) / 2
  let st2 := baseline / tr + delay + blockOn / tr + blockOff / tr + (blockOn / tr) / 2
  npMean (((List.range curve.length).filter (fun (i : ℕ) =>
      decide ((st1 ≤ (i : ℚ) ∧ (i : ℚ) ≤ st1 + (blockOn / tr) / 2) ∨
        (st2 ≤ (i : ℚ) ∧ (i : ℚ) ≤ st2 + (blockOn / tr) / 2)))).map
      (fun i => curve.getD i 0))

/-- Python 3 `round` on a float: round half to even. -/
def pyRound (q : ℚ) : ℤ :=
  if Int.fract q < 1 / 2 then ⌊q⌋
  else if 1 / 2 < Int.fract q then ⌊q⌋ + 1
  else if 2 ∣ ⌊q⌋ then ⌊q⌋ else ⌊q⌋ + 1

/-- Line 167 of `_preproc_co2`: `resp_period = round(1/harm)`, with
`harm` a numpy `float64` drawn from `np.linspace`.  At a zero peak
frequency the division `1/harm` does not raise: numpy emits only a
`RuntimeWarning` and yields `inf`, and it is the subsequent Python
`round(inf)` that raises `OverflowError` ("cannot convert float infinity
to integer").  The non-zero branch is exact, so the infinity never needs
to be represented. -/
def respPeriod (harm : ℚ) : Except PyErr ℤ :=
  if harm = 0 then .error .overflowError else .ok (pyRound (1 / harm))

/-- Lines 177-181 of `_preproc_co2` for one window `i`: linear scan for
the window maximum and its absolute position, starting from the zero
initialisation of `winmax[i]`/`posmax[i]` and overwriting on `j == 0` or
a strictly larger value.  All indices `i*nsearch + j` are in range when
`i < len / nsearch`, so the `getD` default is never taken. -/
def windowPeak (l : List ℚ) (nsearch i : ℕ) : ℚ × ℕ :=
  (List.range nsearch).foldl
    (fun acc j =>
      let v := l.getD (i * nsearch + j) 0
      if j = 0 ∨ acc.1 < v then (v, i * nsearch + j) else acc)
    (0, 0)

/-- Lines 171-196 of `_preproc_co2`, with the window size `nsearch_vols`
as a parameter: `windows = int(floor(len/nsearch))`; find each window's
peak; write the linear ramps between consecutive peaks into a zero
array; then pad `[:posmax[0]]` and `[posmax[-1]:]` with the boundary peak
values.  The padding step indexes `posmax[0]` and `posmax[-1]`, raising
`IndexError` when `windows == 0`.  Consecutive peak positions are
strictly increasing, so the rational division for the ramp slope is
never division by zero on reachable inputs. -/
def envelope (trim : List ℚ) (nsearch : ℕ) : Except PyErr (List ℚ) :=
  let windows := trim.length / nsearch
  let peaks := (List.range windows).map (windowPeak trim nsearch)
  let posmax := peaks.map Prod.snd
  let winmax := peaks.map Prod.fst
  let resamp0 := List.replicate trim.length (0 : ℚ)
  let resamp1 := (List.range (windows - 1)).foldl
    (fun r x =>
      let px := posmax.getD x 0
      let px1 := posmax.getD (x + 1) 0
      let wx := winmax.getD x 0
      let wx1 := winmax.getD (x + 1) 0
      let ramp := (wx1 - wx) / ((px1 : ℚ) - px)
      (List.range (px1 - px + 1)).foldl
        (fun rr g => rr.set (px + g) (wx + ramp * g)) r)
    resamp0
  match posmax.head?, posmax.getLast? with
  | some p0, some pl =>
      let v0 := resamp1.getD p0 0
      let r2 := (List.range p0).foldl (fun r i => r.set i v0) resamp1
      let vl := r2.getD pl 0
      .ok ((List.range (r2.length - pl)).foldl (fun r i => r.set (pl + i) vl) r2)
  | _, _ => .error .indexError

/-- Line 200 of `_preproc_co2`: `block = round(tr * samp_rate)`.  When
`tr` is the `NaN` produced by `np.mean` of an empty interval array,
Python `round` raises `ValueError: cannot convert float NaN to integer`. -/
def blockOf (tr : Option ℚ) (sampRate : ℚ) : Except PyErr ℤ :=
  match tr with
  | none => .error .valueError
  | some q => .ok (pyRound (q * sampRate))

/-! ### Helper lemmas -/

theorem tfGather_in_range (l : List ℚ) (i : ℤ) (h0 : 0 ≤ i)
    (h1 : i.toNat < l.length) : tfGather l i = some (l.get ⟨i.toNat, h1⟩) := by
  simp only [tfGather]
  rw [dif_pos ⟨h0, h1⟩]

theorem tfGather_isSome_iff (l : List ℚ) (i : ℤ) :
    (tfGather l i).isSome = true ↔ 0 ≤ i ∧ i < (l.length : ℤ) := by
  simp only [tfGather]
  split
  · next h =>
      simp only [Option.isSome_some, true_iff]
      exact ⟨h.1, by omega⟩
  · next h =>
      simp only [Option.isSome_none, Bool.false_eq_true, false_iff]
      intro hc
      exact h ⟨hc.1, by omega⟩

theorem pyGet_in_range (l : List ℚ) (i : ℕ) (h : i < l.length) :
    pyGet l i = .ok (l.get ⟨i, h⟩) := by
  have hni : ¬ ((i : ℤ) < 0) := by omega
  simp only [pyGet]
  split
  · next hc => exact absurd hc hni
  · next hc =>
      split
      · next hc2 => rfl
      · next hc2 => exact absurd ⟨by omega, by omega⟩ hc2

theorem co2Diff_length (l : List ℚ) : (co2Diff l).length = l.length := by
  simp [co2Diff]

theorem co2Diff_getD (l : List ℚ) (i : ℕ) (h : i < l.length) :
    (co2Diff l).getD i 0 =
      if i + 1 < l.length then l.getD (i + 1) 0 - l.getD i 0 else 0 := by
  have hlen : i < (co2Diff l).length := by rw [co2Diff_length]; exact h
  rw [List.getD_eq_getElem _ _ hlen]
  simp only [co2Diff]
  rw [List.getElem_ofFn]

theorem co2Diff_last (l : List ℚ) (h : l ≠ []) :
    (co2Diff l).getD (l.length - 1) 0 = 0 := by
  have hl : 0 < l.length := List.length_pos.mpr h
  rw [co2Diff_getD l (l.length - 1) (by omega)]
  rw [if_neg (by omega)]

theorem filterMap_guard {α β : Type} (p : α → Prop) [DecidablePred p]
    (f : α → β) (l : List α) :
    l.filterMap (fun a => if p a then some (f a) else none) =
      (l.filter (fun a => decide (p a))).map f := by
  induction l with
  | nil => rfl
  | cons a as ih =>
      by_cases h : p a <;>
        simp [List.filterMap_cons, List.filter_cons, h, ih]

theorem seqOpt_isSome_iff (l : List (Option ℚ)) :
    (seqOpt l).isSome = true ↔ ∀ o ∈ l, o.isSome = true := by
  induction l with
  | nil => simp [seqOpt]
  | cons o os ih =>
      cases o with
      | none => simp [seqOpt]
      | some v => simp [seqOpt, Option.isSome_map, ih]

theorem map_range'_getD (l : List ℚ) :
    ∀ (m a : ℕ), a + m ≤ l.length →
      (List.range' a m).map (fun i => l.getD i 0) = (l.drop a).take m := by
  intro m
  induction m with
  | zero => intro a _; simp
  | succ m ih =>
      intro a hm
      have ha : a < l.length := by omega
      rw [List.range'_succ, List.map_cons, List.drop_eq_getElem_cons ha]
      rw [List.take_succ_cons]
      rw [ih (a + 1) (by omega)]
      rw [List.getD_eq_getElem _ _ ha]

theorem tfGather_in_range_getD (l : List ℚ) (i : ℤ) (h0 : 0 ≤ i)
    (h1 : i < (l.length : ℤ)) : tfGather l i = some (l.getD i.toNat 0) := by
  have h1n : i.toNat < l.length := by omega
  rw [tfGather_in_range l i h0 h1n]
  rw [List.getD_eq_getElem _ _ h1n]
  rfl

theorem getD_length_sub_one (l : List ℚ) (h : l ≠ []) :
    l.getD (l.length - 1) 0 = l.getLast h := by
  have hl : 0 < l.length := List.length_pos.mpr h
  rw [List.getLast_eq_getElem]
  rw [List.getD_eq_getElem _ _ (by omega)]

theorem tBaseOf_eq_last (n : ℕ) (td : ℚ) (hn : n ≠ 0)
    (h : (n : ℤ) - 1 ≤ ⌊td⌋) : tBaseOf n td = (n : ℤ) - 1 := by
  unfold tBaseOf
  rw [max_eq_left (by omega), min_eq_right (by omega)]

/-- At any delayed timepoint whose floor reaches the final base index, the
delay-path sample equals the last curve element: the base index clips to
`len - 1` and the gathered diff element is the inert trailing zero. -/
theorem sampleDelayElem_last (curve : List ℚ) (t delay : ℚ) (hne : curve ≠ [])
    (hfl : (curve.length : ℤ) - 1 ≤ ⌊t - delay⌋) :
    sampleDelayElem curve (co2Diff curve) t delay = some (curve.getLast hne) := by
  have hn : 0 < curve.length := List.length_pos.mpr hne
  have hb : tBaseOf curve.length (t - delay) = (curve.length : ℤ) - 1 :=
    tBaseOf_eq_last _ _ (by omega) hfl
  have htn : ((curve.length : ℤ) - 1).toNat = curve.length - 1 := by omega
  simp only [sampleDelayElem, hb]
  rw [tfGather_in_range_getD _ _ (by omega) (by omega)]
  rw [tfGather_in_range_getD _ _ (by omega) (by rw [co2Diff_length]; omega)]
  rw [htn, getD_length_sub_one curve hne, co2Diff_last curve hne]
  show some (curve.getLast hne + tFracOf curve.length (t - delay) * 0) =
    some (curve.getLast hne)
  rw [mul_zero, add_zero]

theorem trigTimeDiff_of_short (tt : List ℚ) (h : tt.length ≤ 3) :
    trigTimeDiff tt = [] := by
  have hd : (tt.take (tt.length - 1)).drop 2 = [] := by
    apply List.drop_eq_nil_of_le
    simp only [List.length_take]
    omega
  simp [trigTimeDiff, hd]

/-! ### Claim theorems -/

/-- C7: the first-difference array has the same length as the calibrated
curve, satisfies `diff[i] = curve[i+1] - curve[i]` for every index
`i < length - 1`, and has `diff[length - 1] = 0`. -/
theorem claim7_diff_correct (l : List ℚ) :
    (co2Diff l).length = l.length ∧
    (∀ i, i + 1 < l.length →
      (co2Diff l).getD i 0 = l.getD (i + 1) 0 - l.getD i 0) ∧
    (l ≠ [] → (co2Diff l).getD (l.length - 1) 0 = 0) := by
  refine ⟨co2Diff_length l, ?_, co2Diff_last l⟩
  intro i hi
  rw [co2Diff_getD l i (by omega), if_pos hi]

/-- Witness for C7 at the concrete curve `[1, 4, 9]`. -/
theorem claim7_witness :
    (co2Diff [1, 4, 9]).getD 0 0 = 3 ∧ (co2Diff [1, 4, 9]).getD 2 0 = 0 := by
  constructor
  · have h := (claim7_diff_correct [1, 4, 9]).2.1 0 (by norm_num)
    rw [h]; norm_num
  · have h := (claim7_diff_correct [1, 4, 9]).2.2 (by simp)
    simpa using h

/-- C8: with `delay = 0` and an integer timepoint `k` with
`0 ≤ k ≤ curve_length - 1`, the base index equals `k`, the fractional
part is zero, and both sampler paths return exactly `curve[k]`. -/
theorem claim8_integer_identity (curve diff : List ℚ) (k : ℕ)
    (hk : k < curve.length) (hd : diff.length = curve.length) :
    tBaseOf curve.length (k : ℚ) = (k : ℤ) ∧
    tFracOf curve.length (k : ℚ) = 0 ∧
    sampleDelayElem curve diff (k : ℚ) 0 = some (curve.getD k 0) ∧
    sampleNoDelayElem curve (k : ℚ) = some (curve.getD k 0) := by
  have hb : tBaseOf curve.length (k : ℚ) = (k : ℤ) := by
    unfold tBaseOf
    rw [Int.floor_natCast, max_eq_left (by omega), min_eq_left (by omega)]
  have hf : tFracOf curve.length (k : ℚ) = 0 := by
    unfold tFracOf clip
    rw [hb]
    push_cast
    rw [sub_self, max_self, min_eq_left (by norm_num)]
  have h3 : sampleDelayElem curve diff (k : ℚ) 0 = some (curve.getD k 0) := by
    simp only [sampleDelayElem, sub_zero, hb]
    rw [tfGather_in_range_getD _ _ (by omega) (by omega)]
    rw [tfGather_in_range_getD _ _ (by omega) (by omega)]
    simp [hf]
  have h4 : sampleNoDelayElem curve (k : ℚ) = some (curve.getD k 0) := by
    unfold sampleNoDelayElem truncQ
    rw [if_pos (by positivity), Int.floor_natCast]
    rw [tfGather_in_range_getD _ _ (by omega) (by omega)]
    simp
  exact ⟨hb, hf, h3, h4⟩

/-- Witness for C8 at curve `[2, 4, 6]`, `k = 1`. -/
theorem claim8_witness :
    tBaseOf 3 1 = 1 ∧ tFracOf 3 1 = 0 ∧
    sampleDelayElem [2, 4, 6] (co2Diff [2, 4, 6]) 1 0 = some 4 ∧
    sampleNoDelayElem [2, 4, 6] 1 = some 4 := by
  have h := claim8_integer_identity [2, 4, 6] (co2Diff [2, 4, 6]) 1
    (by norm_num) (by rw [co2Diff_length])
  obtain ⟨h1, h2, h3, h4⟩ := h
  refine ⟨by simpa using h1, by simpa using h2, ?_, ?_⟩
  · have := h3
    norm_num [List.getD] at this ⊢
    exact this
  · have := h4
    norm_num [List.getD] at this ⊢
    exact this

/-- C4 counterexample: for a curve of length 2 and delayed timepoint 10
the base index clips to the final valid index 1, but the fractional
interpolation coefficient is 1, not the claimed 0. -/
theorem claim4_counterexample :
    tBaseOf 2 10 = 1 ∧ tFracOf 2 10 = 1 ∧ (1 : ℚ) ≠ 0 := by
  have hb : tBaseOf 2 10 = 1 := by
    unfold tBaseOf
    norm_num
  refine ⟨hb, ?_, by norm_num⟩
  unfold tFracOf clip
  rw [hb]
  norm_num

/-- C4 (amended): once the delayed timepoint reaches the curve length,
the base index clips to the final valid index and the fractional
coefficient is clipped to 1 (not 0); the last difference element still
never contributes to the value because it equals zero, so the sample is
the final curve element. -/
theorem claim4_amended (curve : List ℚ) (t delay : ℚ) (hne : curve ≠ [])
    (h : (curve.length : ℚ) ≤ t - delay) :
    tBaseOf curve.length (t - delay) = (curve.length : ℤ) - 1 ∧
    tFracOf curve.length (t - delay) = 1 ∧
    sampleDelayElem curve (co2Diff curve) t delay = some (curve.getLast hne) := by
  have hn : 0 < curve.length := List.length_pos.mpr hne
  have hfl : (curve.length : ℤ) ≤ ⌊t - delay⌋ := Int.le_floor.mpr (by push_cast; linarith)
  have hb := tBaseOf_eq_last curve.length (t - delay) (by omega) (by omega)
  refine ⟨hb, ?_, sampleDelayElem_last curve t delay hne (by omega)⟩
  unfold tFracOf clip
  rw [hb]
  push_cast
  rw [max_eq_left (by linarith), min_eq_right (by linarith)]

/-- Witness for C4 (amended) at curve `[3, 7]`, `t = 10`, `delay = 1`. -/
theorem claim4_witness :
    tBaseOf 2 9 = 1 ∧ tFracOf 2 9 = 1 ∧
    sampleDelayElem [3, 7] (co2Diff [3, 7]) 10 1 = some 7 := by
  have h := claim4_amended [3, 7] 10 1 (by simp) (by norm_num)
  obtain ⟨h1, h2, h3⟩ := h
  norm_num at h1 h2 h3
  exact ⟨h1, h2, h3⟩

/-- C5: a delayed timepoint beyond the curve's final index saturates to
the last curve element, regardless of how far beyond it lies. -/
theorem claim5_saturate (curve : List ℚ) (t delay : ℚ) (hne : curve ≠ [])
    (h : (curve.length : ℚ) - 1 < t - delay) :
    sampleDelayElem curve (co2Diff curve) t delay = some (curve.getLast hne) := by
  have hn : 0 < curve.length := List.length_pos.mpr hne
  exact sampleDelayElem_last curve t delay hne (Int.le_floor.mpr (by push_cast; linarith))

/-- Witness for C5 at curve `[3, 7]` and the fractional timepoint `3/2`. -/
theorem claim5_witness :
    sampleDelayElem [3, 7] (co2Diff [3, 7]) (3 / 2) 0 = some 7 := by
  have h := claim5_saturate [3, 7] (3 / 2) 0 (by simp) (by norm_num)
  norm_num at h
  exact h

theorem pyGet_one_oob (l : List ℚ) (h : l.length ≤ 1) :
    pyGet l 1 = .error .indexError := by
  have hni : ¬ ((1 : ℤ) < 0) := by norm_num
  simp only [pyGet]
  split
  · next hc => exact absurd hc hni
  · next hc =>
      split
      · next hc2 => exfalso; omega
      · rfl

theorem pyGet_one (l : List ℚ) (h : 1 < l.length) :
    pyGet l 1 = .ok (l.get ⟨1, h⟩) := by
  have h2 := pyGet_in_range l 1 h
  simpa using h2

theorem preprocTrim_of_ge_two (raw : RawTrace) (threshold delay : ℚ)
    (h : 1 < (trigTime raw.timings raw.trig threshold).length) :
    preprocTrim raw threshold delay =
      .ok ⟨npMean (trigTimeDiff (trigTime raw.timings raw.trig threshold)),
        ((trigTime raw.timings raw.trig threshold).length : ℤ) - 1,
        petco2Trim raw.timings raw.petco2
          ((trigTime raw.timings raw.trig threshold).get ⟨1, h⟩ - delay)⟩ := by
  simp only [preprocTrim]
  rw [pyGet_one _ h]

/-- C1 counterexample: on a trace where no trigger-channel sample exceeds
the threshold, calibration dies with an `IndexError` raised by the
`trig_time[1]` access, not with any `CalibrationError` (which does not
exist in the code). -/
theorem claim1_counterexample :
    preprocTrim ⟨[0, 1, 2], [40, 41, 42], [0, 0, 0], [0, 0, 0]⟩ 3 15 =
      .error .indexError ∧
    PyErr.indexError ≠ PyErr.calibrationError := by
  constructor
  · have htt : trigTime [0, 1, 2] [0, 0, 0] 3 = [] := by
      norm_num [trigTime, List.filterMap_cons]
    have hg : pyGet (trigTime [0, 1, 2] [0, 0, 0] 3) 1 = .error .indexError := by
      rw [htt]; exact pyGet_one_oob [] (by simp)
    simp [preprocTrim, hg]
  · simp

/-- C1 (amended): each of the three insufficiencies aborts calibration by
raising an unhandled builtin exception, not a `CalibrationError` (no such
type exists in the code), and no partial curve is returned: zero detected
triggers raise `IndexError` at the trim step, zero windows raise
`IndexError` at the envelope padding step, and a zero respiratory peak
frequency would raise `OverflowError` at the period computation, where
`1/harm` is the numpy infinity (warning only) and `round` of it raises. -/
theorem claim1_error_kinds (raw : RawTrace) (threshold delay : ℚ)
    (trim : List ℚ) (nsearch : ℕ) (harm : ℚ) :
    (trigTime raw.timings raw.trig threshold = [] →
      preprocTrim raw threshold delay = .error .indexError) ∧
    (trim.length / nsearch = 0 → envelope trim nsearch = .error .indexError) ∧
    (harm = 0 → respPeriod harm = .error .overflowError) := by
  refine ⟨?_, ?_, ?_⟩
  · intro h
    have hg : pyGet (trigTime raw.timings raw.trig threshold) 1 = .error .indexError := by
      rw [h]; exact pyGet_one_oob [] (by simp)
    simp [preprocTrim, hg]
  · intro h
    simp [envelope, h]
  · intro h
    simp [respPeriod, h]

/-- Witness for C1 (amended) at concrete degenerate inputs. -/
theorem claim1_witness :
    preprocTrim ⟨[0], [40], [0], [0]⟩ 3 15 = .error .indexError ∧
    envelope [1, 2] 5 = .error .indexError ∧
    respPeriod 0 = .error .overflowError := by
  have h := claim1_error_kinds ⟨[0], [40], [0], [0]⟩ 3 15 [1, 2] 5 0
  exact ⟨h.1 (by norm_num [trigTime, List.filterMap_cons]), h.2.1 (by norm_num), h.2.2 rfl⟩

/-- C10 counterexample: a trace with exactly one above-threshold trigger
sample (at least one and fewer than four) does raise an error: the
`trig_time[1]` access in the trim step fails with `IndexError`, so the
pipeline does not proceed past it. -/
theorem claim10_counterexample :
    preprocTrim ⟨[0, 1, 2], [40, 41, 42], [0, 0, 0], [5, 0, 0]⟩ 3 15 =
      .error .indexError := by
  have htt : trigTime [0, 1, 2] [5, 0, 0] 3 = [0] := by
    norm_num [trigTime, List.filterMap_cons]
  have hg : pyGet (trigTime [0, 1, 2] [5, 0, 0] 3) 1 = .error .indexError := by
    rw [htt]; exact pyGet_one_oob [0] (by simp)
  simp [preprocTrim, hg]

/-- C10 (amended): with exactly one detected trigger sample the trim step
itself fails with `IndexError`; with two or three, the trim step succeeds
and the estimated TR is the NaN mean of an empty interior-interval array,
but the pipeline then fails with `ValueError` at the later
`block = round(tr * samp_rate)` step instead of proceeding. -/
theorem claim10_small_trigger_counts (raw : RawTrace)
    (threshold delay sampRate : ℚ) :
    ((trigTime raw.timings raw.trig threshold).length = 1 →
      preprocTrim raw threshold delay = .error .indexError) ∧
    ((trigTime raw.timings raw.trig threshold).length = 2 ∨
        (trigTime raw.timings raw.trig threshold).length = 3 →
      (preprocTrim raw threshold delay).isOk = true ∧
      ∀ r, preprocTrim raw threshold delay = .ok r →
        r.tr = none ∧ blockOf r.tr sampRate = .error .valueError) := by
  constructor
  · intro h
    have hg : pyGet (trigTime raw.timings raw.trig threshold) 1 = .error .indexError :=
      pyGet_one_oob _ (by omega)
    simp [preprocTrim, hg]
  · intro hn
    have h1 : 1 < (trigTime raw.timings raw.trig threshold).length := by
      rcases hn with h2 | h3
      · omega
      · omega
    have hok := preprocTrim_of_ge_two raw threshold delay h1
    have hdiff : trigTimeDiff (trigTime raw.timings raw.trig threshold) = [] := by
      apply trigTimeDiff_of_short
      rcases hn with h2 | h3
      · omega
      · omega
    constructor
    · rw [hok]; rfl
    · intro r hr
      rw [hok] at hr
      have hr' : r = ⟨npMean (trigTimeDiff (trigTime raw.timings raw.trig threshold)),
          ((trigTime raw.timings raw.trig threshold).length : ℤ) - 1,
          petco2Trim raw.timings raw.petco2
            ((trigTime raw.timings raw.trig threshold).get ⟨1, h1⟩ - delay)⟩ := by
        injection hr with hr''
        exact hr''.symm
      have htr : r.tr = none := by
        rw [hr']
        simp [hdiff, npMean]
      exact ⟨htr, by rw [htr]; rfl⟩

/-- Witness for C10 (amended) at a concrete three-trigger trace. -/
theorem claim10_witness :
    (preprocTrim ⟨[0, 1, 2], [40, 41, 42], [0, 0, 0], [5, 5, 5]⟩ 3 1).isOk = true := by
  have h := (claim10_small_trigger_counts
    ⟨[0, 1, 2], [40, 41, 42], [0, 0, 0], [5, 5, 5]⟩ 3 1 100).2
  refine (h ?_).1
  right
  norm_num [trigTime, List.filterMap_cons]

/-- C2 counterexample: on a trace whose first and second detected trigger
samples occur at times 0 and 20, with delay 4, the code trims at
`trig_time[1] - delay = 16` and keeps only the last three PETCO2 samples,
while trimming at the first detected trigger time (`0 - 4 = -4`) as the
claim states would keep all five. -/
theorem claim2_counterexample :
    preprocTrim ⟨[0, 10, 20, 30, 40], [41, 42, 43, 44, 45], [0, 0, 0, 0, 0],
        [5, 0, 5, 0, 0]⟩ 3 4 =
      .ok ⟨none, 1, [43, 44, 45]⟩ ∧
    petco2Trim [0, 10, 20, 30, 40] [41, 42, 43, 44, 45]
      ((trigTime [0, 10, 20, 30, 40] [5, 0, 5, 0, 0] 3).getD 0 0 - 4) =
      [41, 42, 43, 44, 45] ∧
    ([43, 44, 45] : List ℚ) ≠ [41, 42, 43, 44, 45] := by
  have htt : trigTime [0, 10, 20, 30, 40] [5, 0, 5, 0, 0] 3 = [0, 20] := by
    norm_num [trigTime, List.filterMap_cons]
  refine ⟨?_, ?_, by simp⟩
  · rw [preprocTrim_of_ge_two _ 3 4 (by rw [htt]; norm_num)]
    congr 1
    have hget : (trigTime [0, 10, 20, 30, 40] [5, 0, 5, 0, 0] 3).get
        ⟨1, by rw [htt]; norm_num⟩ = 20 := by
      simp [htt]
    rw [TrimResult.mk.injEq]
    refine ⟨?_, by rw [htt]; norm_num, ?_⟩
    · rw [htt]
      rw [trigTimeDiff_of_short _ (by norm_num)]
      rfl
    · rw [hget]
      norm_num [petco2Trim, List.filterMap_cons]
  · rw [htt]
    norm_num [petco2Trim, List.filterMap_cons]

/-- C2 (amended): with at least two detected trigger samples, the trim
retains exactly the PETCO2 samples whose timestamp is at least
`trig_time[1] - mechanical_delay`: the trim reference point is the time
of the *second* above-threshold trigger sample, not the first. -/
theorem claim2_trim_reference (raw : RawTrace) (threshold delay : ℚ)
    (h : 1 < (trigTime raw.timings raw.trig threshold).length) :
    preprocTrim raw threshold delay =
      .ok ⟨npMean (trigTimeDiff (trigTime raw.timings raw.trig threshold)),
        ((trigTime raw.timings raw.trig threshold).length : ℤ) - 1,
        ((raw.timings.zip raw.petco2).filter (fun p =>
          decide ((trigTime raw.timings raw.trig threshold).get ⟨1, h⟩ - delay ≤ p.1))).map
          Prod.snd⟩ := by
  rw [preprocTrim_of_ge_two raw threshold delay h]
  congr 1
  rw [TrimResult.mk.injEq]
  refine ⟨rfl, rfl, ?_⟩
  unfold petco2Trim
  rw [filterMap_guard
    (fun p : ℚ × ℚ => (trigTime raw.timings raw.trig threshold).get ⟨1, h⟩ - delay ≤ p.1)
    Prod.snd (raw.timings.zip raw.petco2)]

/-- Witness for C2 (amended) at a concrete two-trigger trace. -/
theorem claim2_witness :
    preprocTrim ⟨[0, 10, 20, 30, 40], [41, 42, 43, 44, 45], [0, 0, 0, 0, 0],
        [5, 0, 5, 0, 0]⟩ 3 5 =
      .ok ⟨none, 1, [43, 44, 45]⟩ := by
  have h1 : 1 < (trigTime [0, 10, 20, 30, 40] [5, 0, 5, 0, 0] 3).length := by
    norm_num [trigTime, List.filterMap_cons]
  have h := claim2_trim_reference
    ⟨[0, 10, 20, 30, 40], [41, 42, 43, 44, 45], [0, 0, 0, 0, 0], [5, 0, 5, 0, 0]⟩ 3 5 h1
  rw [h]
  have htt : trigTime [0, 10, 20, 30, 40] [5, 0, 5, 0, 0] 3 = [0, 20] := by
    norm_num [trigTime, List.filterMap_cons]
  have hd0 : trigTimeDiff (trigTime [0, 10, 20, 30, 40] [5, 0, 5, 0, 0] 3) = [] := by
    rw [htt]
    exact trigTimeDiff_of_short _ (by norm_num)
  congr 1
  rw [TrimResult.mk.injEq]
  have hget : (trigTime [0, 10, 20, 30, 40] [5, 0, 5, 0, 0] 3).get ⟨1, h1⟩ = 20 := by
    simp [htt]
  refine ⟨?_, ?_, ?_⟩
  · dsimp only
    rw [hd0]
    rfl
  · dsimp only
    rw [htt]
    norm_num
  · dsimp only
    rw [hget]
    norm_num [List.filter_cons]

theorem tBaseOf_bounds (n : ℕ) (td : ℚ) (hn : 0 < n) :
    0 ≤ tBaseOf n td ∧ tBaseOf n td < (n : ℤ) := by
  unfold tBaseOf
  constructor
  · exact le_min (le_max_right _ _) (by omega)
  · have h := min_le_right (max ⌊td⌋ 0) ((n : ℤ) - 1)
    omega

theorem sampleDelayElem_isSome (curve diff : List ℚ) (t delay : ℚ)
    (hne : curve ≠ []) (hd : diff.length = curve.length) :
    (sampleDelayElem curve diff t delay).isSome = true := by
  have hn : 0 < curve.length := List.length_pos.mpr hne
  obtain ⟨h0, h1⟩ := tBaseOf_bounds curve.length (t - delay) hn
  simp only [sampleDelayElem]
  rw [tfGather_in_range_getD _ _ h0 h1,
    tfGather_in_range_getD _ _ h0 (by omega)]
  rfl

/-- C3 counterexample: the no-delay path performs no clamping, so an
out-of-range timepoint makes the gather index (here 5, outside `[0, 1]`)
invalid and the sample operation fails. -/
theorem claim3_counterexample :
    sampleNoDelayElem [1, 2] 5 = none ∧
    sampleNoDelayBatch [1, 2] [0, 5] = none ∧
    truncQ 5 = 5 := by
  have h5 : truncQ 5 = 5 := by norm_num [truncQ]
  have he : sampleNoDelayElem [1, 2] 5 = none := by
    rw [sampleNoDelayElem, h5]
    rfl
  refine ⟨he, ?_, h5⟩
  have h0 : sampleNoDelayElem [1, 2] 0 = some 1 := by
    have ht : truncQ 0 = 0 := by norm_num [truncQ]
    rw [sampleNoDelayElem, ht]
    rfl
  simp [sampleNoDelayBatch, seqOpt, h0, he]

/-- C3 (amended): the delay path clips every index into
`[0, curve_length - 1]` and never fails on a nonempty curve, but the
no-delay path uses the truncated timepoint unclamped, so the batch sample
succeeds exactly when every truncated timepoint already lies in
`[0, curve_length - 1]`. -/
theorem claim3_no_failure (curve diff : List ℚ) (delay : ℚ) (tpts : List ℚ)
    (hne : curve ≠ []) (hd : diff.length = curve.length) :
    (sampleDelayBatch curve diff delay tpts).isSome = true ∧
    ((sampleNoDelayBatch curve tpts).isSome = true ↔
      ∀ t ∈ tpts, 0 ≤ truncQ t ∧ truncQ t < (curve.length : ℤ)) := by
  constructor
  · rw [sampleDelayBatch, seqOpt_isSome_iff]
    intro o ho
    rw [List.mem_map] at ho
    obtain ⟨t, _, rfl⟩ := ho
    exact sampleDelayElem_isSome curve diff t delay hne hd
  · rw [sampleNoDelayBatch, seqOpt_isSome_iff]
    constructor
    · intro hall t ht
      have hmem := hall _ (List.mem_map_of_mem (sampleNoDelayElem curve) ht)
      rwa [sampleNoDelayElem, tfGather_isSome_iff] at hmem
    · intro hall o ho
      rw [List.mem_map] at ho
      obtain ⟨t, ht, rfl⟩ := ho
      rw [sampleNoDelayElem, tfGather_isSome_iff]
      exact hall t ht

/-- Witness for C3 (amended): a far-out-of-range delay still samples
successfully on the delay path, and an in-range batch succeeds on the
no-delay path. -/
theorem claim3_witness :
    (sampleDelayBatch [1, 2] [5, 0] 100 [0, 7]).isSome = true ∧
    (sampleNoDelayBatch [1, 2] [0, 1]).isSome = true := by
  have ha := claim3_no_failure [1, 2] [5, 0] 100 [0, 7] (by simp) (by simp)
  have hb := claim3_no_failure [1, 2] [5, 0] 100 [0, 1] (by simp) (by simp)
  refine ⟨ha.1, hb.2.mpr ?_⟩
  intro t ht
  fin_cases ht <;> norm_num [truncQ]

theorem evaluateElem_sig0_off (inferDelay : Bool) (curve diff : List ℚ)
    (cvr sig0p delayp t : ℚ) (v : ℚ)
    (h : evaluateElem false inferDelay curve diff cvr sig0p delayp t = some v) :
    v = 0 := by
  simp only [evaluateElem, Bool.false_eq_true, if_false] at h
  rw [Option.map_eq_some'] at h
  obtain ⟨c, _, hv⟩ := h
  rw [← hv]
  ring

/-- C9: with signal-offset inference disabled, any successful forward
evaluation returns the all-zero vector, because the fixed offset `0`
multiplies the entire model expression `sig0 * (1 + cvr * co2 / 100)`. -/
theorem claim9_zero_output (inferDelay : Bool) (curve diff : List ℚ)
    (cvr sig0p delayp : ℚ) (tpts : List ℚ) (vs : List ℚ)
    (h : evaluateBatch false inferDelay curve diff cvr sig0p delayp tpts = some vs) :
    vs = List.replicate tpts.length 0 := by
  induction tpts generalizing vs with
  | nil =>
      simp only [evaluateBatch, List.map_nil, seqOpt] at h
      injection h with h2
      simp [← h2]
  | cons t ts ih =>
      rw [evaluateBatch, List.map_cons] at h
      cases he : evaluateElem false inferDelay curve diff cvr sig0p delayp t with
      | none => rw [he] at h; simp [seqOpt] at h
      | some v =>
          rw [he] at h
          simp only [seqOpt] at h
          rw [Option.map_eq_some'] at h
          obtain ⟨vs', hvs', hv⟩ := h
          rw [← hv, List.length_cons, List.replicate_succ]
          rw [evaluateElem_sig0_off _ _ _ _ _ _ _ _ he]
          rw [ih vs' hvs']

/-- Witness for C9 at a concrete one-point evaluation. -/
theorem claim9_witness :
    evaluateBatch false false [5] (co2Diff [5]) 2 3 4 [0] =
      some (List.replicate 1 0) := by
  have hel : sampleNoDelayElem [5] 0 = some 5 := by
    have ht : truncQ 0 = 0 := by norm_num [truncQ]
    rw [sampleNoDelayElem, ht]
    rfl
  have hb : evaluateBatch false false [5] (co2Diff [5]) 2 3 4 [0] = some [0] := by
    simp [evaluateBatch, evaluateElem, hel, seqOpt]
  rw [hb]
  exact congrArg some (claim9_zero_output false [5] (co2Diff [5]) 2 3 4 [0] [0] hb).symm

theorem pySlice_eq_map_range' (l : List ℚ) (a b : ℤ) (h0 : 0 ≤ a)
    (hab : a ≤ b) (hbl : b ≤ (l.length : ℤ)) :
    pySlice l a b =
      (List.range' a.toNat (b - a).toNat).map (fun i => l.getD i 0) := by
  have ha : pyIdx l.length a = a.toNat := by
    unfold pyIdx
    rw [if_neg (by omega), min_eq_left (by omega)]
  have hb : pyIdx l.length b = b.toNat := by
    unfold pyIdx
    rw [if_neg (by omega), min_eq_left (by omega)]
  rw [pySlice, ha, hb]
  rw [map_range'_getD l (b - a).toNat a.toNat (by omega)]
  rw [List.drop_take]
  congr 1
  omega

/-- C6 counterexample: with curve `[10, ..., 80]`, `baseline = 3`,
`blocksize_on = blocksize_off = 4`, `delay = 0`, `tr = 2`, the code's
normocapnic level is `10` (slice `[0:1]`) while averaging over indices in
`[0, baseline_vols + delay) = [0, 1.5)` gives `15`; the code's
hypercapnic level is `45` (slices `[1:3]` and `[5:7]`) while averaging
the claim's windows `[2.5, 3.5]` and `[6.5, 7.5]` gives `60`. -/
theorem claim6_counterexample :
    normocap [10, 20, 30, 40, 50, 60, 70, 80] 3 0 2 ≠
      normocapClaim [10, 20, 30, 40, 50, 60, 70, 80] 3 0 2 ∧
    hypercap [10, 20, 30, 40, 50, 60, 70, 80] 3 4 4 0 2 ≠
      hypercapClaim [10, 20, 30, 40, 50, 60, 70, 80] 3 4 4 0 2 := by
  have ht1 : truncQ ((3 : ℚ) / 2 + 0) = 1 := by
    norm_num [truncQ, Int.floor_eq_iff]
  have hs1v : truncQ ((3 : ℚ) / 2 + 0 + 4 / 2 / 2) = 2 := by
    norm_num [truncQ, Int.floor_eq_iff]
  have hs2v : truncQ ((3 : ℚ) / 2 + 0 + 4 / 2) = 3 := by
    norm_num [truncQ, Int.floor_eq_iff]
  have hs3v : truncQ ((3 : ℚ) / 2 + 0 + 4 / 2 + 4 / 2 + 4 / 2 / 2) = 6 := by
    norm_num [truncQ, Int.floor_eq_iff]
  have hs4v : truncQ ((3 : ℚ) / 2 + 0 + 4 / 2 + 4 / 2 + 4 / 2) = 7 := by
    norm_num [truncQ, Int.floor_eq_iff]
  have hrange : List.range ([10, 20, 30, 40, 50, 60, 70, 80] : List ℚ).length =
      [0, 1, 2, 3, 4, 5, 6, 7] := by rfl
  have e1 : normocap [10, 20, 30, 40, 50, 60, 70, 80] 3 0 2 = some 10 := by
    rw [normocap, ht1]
    norm_num [pySlice, pyIdx, npMean]
  have e2 : normocapClaim [10, 20, 30, 40, 50, 60, 70, 80] 3 0 2 = some 15 := by
    rw [normocapClaim, hrange]
    norm_num [List.filter_cons, List.getD, npMean]
    exact fun hc => absurd hc (by simp)
  have e3 : hypercap [10, 20, 30, 40, 50, 60, 70, 80] 3 4 4 0 2 = some 45 := by
    simp only [hypercap]
    rw [hs1v, hs2v, hs3v, hs4v]
    rw [show pySlice ([10, 20, 30, 40, 50, 60, 70, 80] : List ℚ) (2 - 1) 3 =
      [20, 30] from rfl]
    rw [show pySlice ([10, 20, 30, 40, 50, 60, 70, 80] : List ℚ) (6 - 1) 7 =
      [60, 70] from rfl]
    rw [show ([20, 30] : List ℚ) ++ [60, 70] = [20, 30, 60, 70] from rfl]
    rw [npMean, if_neg (by simp)]
    norm_num
  have e4 : hypercapClaim [10, 20, 30, 40, 50, 60, 70, 80] 3 4 4 0 2 = some 60 := by
    simp only [hypercapClaim]
    rw [hrange]
    norm_num [List.filter_cons, List.getD, npMean]
    exact fun hc => absurd hc (by simp)
  rw [e1, e2, e3, e4]
  norm_num

/-- C6 (amended): the normocapnic level is the mean of the curve over
indices `[0, int(baseline_vols + delay))` (Python truncation of the
bound), and the hypercapnic level is the mean over the two half-open
windows `[s - 1, s + blocksize_on_vols/2 - 1]` that begin one volume
before each truncated cumulative half-block offset `s` and exclude the
endpoint (the Python slices `curve[s1-1:s2]` and `curve[s3-1:s4]`). -/
theorem claim6_reference_levels (curve : List ℚ)
    (baseline blockOn blockOff delay tr : ℚ) (k s1 s2 s3 s4 : ℤ)
    (hk : k = truncQ (baseline / tr + delay))
    (hk0 : 0 ≤ k) (hkl : k ≤ (curve.length : ℤ))
    (hs1 : s1 = truncQ (baseline / tr + delay + blockOn / tr / 2))
    (hs2 : s2 = truncQ (baseline / tr + delay + blockOn / tr))
    (hs3 : s3 = truncQ (baseline / tr + delay + blockOn / tr + blockOff / tr +
      blockOn / tr / 2))
    (hs4 : s4 = truncQ (baseline / tr + delay + blockOn / tr + blockOff / tr +
      blockOn / tr))
    (h11 : 1 ≤ s1) (h12 : s1 - 1 ≤ s2) (h2l : s2 ≤ (curve.length : ℤ))
    (h31 : 1 ≤ s3) (h34 : s3 - 1 ≤ s4) (h4l : s4 ≤ (curve.length : ℤ)) :
    normocap curve baseline delay tr =
      npMean ((List.range k.toNat).map (fun i => curve.getD i 0)) ∧
    hypercap curve baseline blockOn blockOff delay tr =
      npMean ((List.range' (s1 - 1).toNat (s2 - s1 + 1).toNat).map
          (fun i => curve.getD i 0) ++
        (List.range' (s3 - 1).toNat (s4 - s3 + 1).toNat).map
          (fun i => curve.getD i 0)) := by
  constructor
  · rw [normocap, ← hk]
    rw [pySlice_eq_map_range' curve 0 k (le_refl 0) hk0 hkl]
    rw [sub_zero, List.range_eq_range']
    rfl
  · simp only [hypercap]
    rw [← hs1, ← hs2, ← hs3, ← hs4]
    rw [pySlice_eq_map_range' curve (s1 - 1) s2 (by omega) (by omega) h2l]
    rw [pySlice_eq_map_range' curve (s3 - 1) s4 (by omega) (by omega) h4l]
    have hn1 : (s2 - (s1 - 1)).toNat = (s2 - s1 + 1).toNat := by omega
    have hn2 : (s4 - (s3 - 1)).toNat = (s4 - s3 + 1).toNat := by omega
    rw [hn1, hn2]

/-- Witness for C6 (amended) at the concrete curve of the counterexample. -/
theorem claim6_witness :
    normocap [10, 20, 30, 40, 50, 60, 70, 80] 3 0 2 = some 10 ∧
    hypercap [10, 20, 30, 40, 50, 60, 70, 80] 3 4 4 0 2 = some 45 := by
  have ht1 : truncQ ((3 : ℚ) / 2 + 0) = 1 := by
    norm_num [truncQ, Int.floor_eq_iff]
  have hs1v : truncQ ((3 : ℚ) / 2 + 0 + 4 / 2 / 2) = 2 := by
    norm_num [truncQ, Int.floor_eq_iff]
  have hs2v : truncQ ((3 : ℚ) / 2 + 0 + 4 / 2) = 3 := by
    norm_num [truncQ, Int.floor_eq_iff]
  have hs3v : truncQ ((3 : ℚ) / 2 + 0 + 4 / 2 + 4 / 2 + 4 / 2 / 2) = 6 := by
    norm_num [truncQ, Int.floor_eq_iff]
  have hs4v : truncQ ((3 : ℚ) / 2 + 0 + 4 / 2 + 4 / 2 + 4 / 2) = 7 := by
    norm_num [truncQ, Int.floor_eq_iff]
  have h := claim6_reference_levels [10, 20, 30, 40, 50, 60, 70, 80] 3 4 4 0 2
    1 2 3 6 7 ht1.symm (by norm_num) (by norm_num) hs1v.symm hs2v.symm
    hs3v.symm hs4v.symm (by norm_num) (by norm_num) (by norm_num)
    (by norm_num) (by norm_num) (by norm_num)
  obtain ⟨h1, h2⟩ := h
  constructor
  · rw [h1]
    rw [show List.map (fun i => ([10, 20, 30, 40, 50, 60, 70, 80] : List ℚ).getD i 0)
        (List.range (Int.toNat 1)) = [10] from rfl]
    rw [npMean, if_neg (by simp)]
    norm_num
  · rw [h2]
    rw [show List.map (fun i => ([10, 20, 30, 40, 50, 60, 70, 80] : List ℚ).getD i 0)
          (List.range' ((2 : ℤ) - 1).toNat ((3 : ℤ) - 2 + 1).toNat) ++
        List.map (fun i => ([10, 20, 30, 40, 50, 60, 70, 80] : List ℚ).getD i 0)
          (List.range' ((6 : ℤ) - 1).toNat ((7 : ℤ) - 6 + 1).toNat) =
        [20, 30, 60, 70] from rfl]
    rw [npMean, if_neg (by simp)]
    norm_num
